import Mathlib

/-!
Verification of the token-based mutual-exclusion and clock-synchronization
core of the DC_Game server/client code base.

Shallow embedding conventions:
* Python `time.time()` floats are modelled as rationals (`ℚ`); every
  operation that reads the clock takes the current instant `now : ℚ` as an
  explicit argument.
* Python dictionaries keyed by client-identity strings are modelled as
  association lists with first-occurrence lookup, in-place update and
  first-occurrence removal (keys are unique in any dict built by these
  operations, matching Python dict semantics).
* Python sets of client identities are modelled as duplicate-free lists.
* Python `int(x)` (truncation toward zero) is `pyInt`.
-/

abbrev ClientId := String

/-- Association-list model of a Python `dict` keyed by client ids. -/
abbrev Dict (α : Type) := List (ClientId × α)

/-- `d[k]` lookup: value at the first occurrence of key `k`, if any. -/
def dictGet? {α : Type} (d : Dict α) (k : ClientId) : Option α :=
  match d with
  | [] => none
  | (k', v') :: rest => if k' = k then some v' else dictGet? rest k

/-- `d[k] = v`: replace the value at key `k` in place, or append the binding. -/
def dictSet {α : Type} (d : Dict α) (k : ClientId) (v : α) : Dict α :=
  match d with
  | [] => [(k, v)]
  | (k', v') :: rest => if k' = k then (k, v) :: rest else (k', v') :: dictSet rest k v

/-- `d.pop(k)`: remove the binding at key `k`, if any. -/
def dictPop {α : Type} (d : Dict α) (k : ClientId) : Dict α :=
  match d with
  | [] => []
  | (k', v') :: rest => if k' = k then rest else (k', v') :: dictPop rest k

/-- Python `set.add` (sets modelled as duplicate-free lists). -/
def setAdd (s : List ClientId) (x : ClientId) : List ClientId :=
  if x ∈ s then s else x :: s

/-- Python `set.remove` guarded by a membership test (`if x in s: s.remove(x)`). -/
def setRemove (s : List ClientId) (x : ClientId) : List ClientId :=
  s.filter (fun y => decide (y ≠ x))

/-- Python `int()` applied to a rational: truncation toward zero. -/
def pyInt (q : ℚ) : ℤ :=
  if q < 0 then -⌊-q⌋ else ⌊q⌋

/-! ## `server/token_manager.py` — `TokenManager` -/

/-- State of `TokenManager` (`server/token_manager.py`): single-holder token
with FIFO wait queue, per-client cooldowns and a pending-request set. -/
structure TokenManager where
  resource_name : String
  token_holder : Option ClientId
  request_queue : List ClientId
  token_acquired_time : Option ℚ
  cooldowns : Dict ℚ
  cooldown_duration : ℚ
  pending_requests : List ClientId
deriving DecidableEq

/-- `TokenManager.__init__(resource_name, cooldown_duration)`. -/
def tmInit (resource_name : String) (cooldown_duration : ℚ) : TokenManager :=
  ⟨resource_name, none, [], none, [], cooldown_duration, []⟩

/-- The free-or-enqueue step of `request_token` (lines 59–71): grant
immediately when the token is free and the queue is empty, otherwise append
to the queue.  Reached either when the client has no pending request or when
it has one but is neither queued nor the holder. -/
def tmGrantOrQueue (s : TokenManager) (client_id : ClientId) (now : ℚ) :
    (Bool × ℤ × ℤ) × TokenManager :=
  if s.token_holder = none ∧ s.request_queue = [] then
    ((true, 0, 0),
     { s with token_holder := some client_id
              token_acquired_time := some now
              pending_requests := setAdd s.pending_requests client_id })
  else
    let q := s.request_queue ++ [client_id]
    ((false, ((q.length : ℤ) - 1), ((q.length : ℤ) - 1) * 5),
     { s with request_queue := q
              pending_requests := setAdd s.pending_requests client_id })

/-- `request_token` after the cooldown gate (lines 43–71): pending-request
handling (position report / already-holder report / fall-through) followed by
grant-or-queue. -/
def tmRequestAfterCooldown (s : TokenManager) (client_id : ClientId) (now : ℚ) :
    (Bool × ℤ × ℤ) × TokenManager :=
  if client_id ∈ s.pending_requests then
    match s.request_queue.findIdx? (fun q => q == client_id) with
    | some position => ((false, (position : ℤ), (position : ℤ) * 5), s)
    | none =>
        if s.token_holder = some client_id then ((true, 0, 0), s)
        else tmGrantOrQueue s client_id now
  else tmGrantOrQueue s client_id now

/-- `TokenManager.request_token(client_id)` returning
`(granted, position, wait_time)` and the successor state. -/
def tmRequestToken (s : TokenManager) (client_id : ClientId) (now : ℚ) :
    (Bool × ℤ × ℤ) × TokenManager :=
  match dictGet? s.cooldowns client_id with
  | some cooldown_until =>
      if now < cooldown_until then
        ((false, -1, pyInt (cooldown_until - now)), s)
      else
        tmRequestAfterCooldown { s with cooldowns := dictPop s.cooldowns client_id } client_id now
  | none => tmRequestAfterCooldown s client_id now

/-- The queue-draining loop of `release_token` (lines 93–110): pop from the
front, skipping (and evicting from the pending set) clients whose cooldown has
not yet expired, popping an expired cooldown entry of the promoted client.
Returns `(next_holder, remaining queue, cooldowns, pending)`. -/
def tmDrain (now : ℚ) : List ClientId → Dict ℚ → List ClientId →
    Option ClientId × List ClientId × Dict ℚ × List ClientId
  | [], cooldowns, pending => (none, [], cooldowns, pending)
  | next_client :: rest, cooldowns, pending =>
      match dictGet? cooldowns next_client with
      | some cooldown_until =>
          if now < cooldown_until then
            tmDrain now rest cooldowns (setRemove pending next_client)
          else
            (some next_client, rest, dictPop cooldowns next_client, pending)
      | none => (some next_client, rest, cooldowns, pending)

/-- `TokenManager.release_token(client_id)` returning `(success, next_holder)`
and the successor state. -/
def tmReleaseToken (s : TokenManager) (client_id : ClientId) (now : ℚ) :
    (Bool × Option ClientId) × TokenManager :=
  if s.token_holder ≠ some client_id then ((false, none), s)
  else
    let cooldowns1 := dictSet s.cooldowns client_id (now + s.cooldown_duration)
    let pending1 := setRemove s.pending_requests client_id
    let r := tmDrain now s.request_queue cooldowns1 pending1
    match r.1 with
    | some next_holder =>
        ((true, some next_holder),
         { s with token_holder := some next_holder
                  token_acquired_time := some now
                  request_queue := r.2.1
                  cooldowns := r.2.2.1
                  pending_requests := r.2.2.2 })
    | none =>
        ((true, none),
         { s with token_holder := none
                  token_acquired_time := none
                  request_queue := r.2.1
                  cooldowns := r.2.2.1
                  pending_requests := r.2.2.2 })

/-- `TokenManager.force_release_token()` returning
`(previous_holder, next_holder)` and the successor state: no cooldown is
recorded, and the queue front is promoted unconditionally. -/
def tmForceReleaseToken (s : TokenManager) (now : ℚ) :
    (Option ClientId × Option ClientId) × TokenManager :=
  let previous_holder := s.token_holder
  let pending1 :=
    match previous_holder with
    | some p => setRemove s.pending_requests p
    | none => s.pending_requests
  match s.request_queue with
  | next_holder :: rest =>
      ((previous_holder, some next_holder),
       { s with token_holder := some next_holder
                token_acquired_time := some now
                request_queue := rest
                pending_requests := pending1 })
  | [] =>
      ((previous_holder, none),
       { s with token_holder := none
                token_acquired_time := none
                pending_requests := pending1 })

/-- Snapshot returned by `TokenManager.get_status()`. -/
structure TMStatus where
  resource : String
  holder : Option ClientId
  queue : List ClientId
  queue_length : ℕ
deriving DecidableEq

/-- `TokenManager.get_status()`. -/
def tmGetStatus (s : TokenManager) : TMStatus :=
  ⟨s.resource_name, s.token_holder, s.request_queue, s.request_queue.length⟩

/-- The test `next_client in cooldowns and now < cooldowns[next_client]`
used by the draining loop and throughout the claims. -/
def inUnexpiredCooldown (cooldowns : Dict ℚ) (now : ℚ) (x : ClientId) : Bool :=
  match dictGet? cooldowns x with
  | some cooldown_until => decide (now < cooldown_until)
  | none => false

/-! ## Helper lemmas about the dict/set model -/

lemma dictPop_eq_of_get_none {α : Type} {d : Dict α} {k : ClientId}
    (h : dictGet? d k = none) : dictPop d k = d := by
  induction d with
  | nil => rfl
  | cons p rest ih =>
      obtain ⟨k', v'⟩ := p
      by_cases hk : k' = k
      · simp [dictGet?, hk] at h
      · simp [dictGet?, hk] at h
        simp [dictPop, hk, ih h]

lemma dictGet?_set_self {α : Type} (d : Dict α) (k : ClientId) (v : α) :
    dictGet? (dictSet d k v) k = some v := by
  induction d with
  | nil => simp [dictSet, dictGet?]
  | cons p rest ih =>
      obtain ⟨k', v'⟩ := p
      by_cases hk : k' = k
      · simp [dictSet, hk, dictGet?]
      · simp [dictSet, hk, dictGet?, ih]

lemma dictGet?_set_ne {α : Type} (d : Dict α) {k k' : ClientId} (v : α) (h : k' ≠ k) :
    dictGet? (dictSet d k v) k' = dictGet? d k' := by
  induction d with
  | nil => simp [dictSet, dictGet?, Ne.symm h]
  | cons p rest ih =>
      obtain ⟨k₀, v₀⟩ := p
      by_cases hk : k₀ = k
      · subst hk
        simp [dictSet, dictGet?, Ne.symm h]
      · simp [dictSet, hk, dictGet?, ih]

lemma dictGet?_pop_ne {α : Type} (d : Dict α) {k k' : ClientId} (h : k' ≠ k) :
    dictGet? (dictPop d k) k' = dictGet? d k' := by
  induction d with
  | nil => rfl
  | cons p rest ih =>
      obtain ⟨k₀, v₀⟩ := p
      by_cases hk : k₀ = k
      · subst hk
        simp [dictPop, dictGet?, Ne.symm h]
      · simp [dictPop, hk, dictGet?, ih]

lemma mem_setRemove {s : List ClientId} {x y : ClientId} :
    y ∈ setRemove s x ↔ y ∈ s ∧ y ≠ x := by
  simp [setRemove, List.mem_filter]

lemma mem_setAdd {s : List ClientId} {x y : ClientId} :
    y ∈ setAdd s x ↔ y = x ∨ y ∈ s := by
  by_cases h : x ∈ s
  · simp only [setAdd, if_pos h]
    constructor
    · exact Or.inr
    · rintro (rfl | hy)
      · exact h
      · exact hy
  · simp [setAdd, if_neg h]

lemma filter_not_mem_nil (s : List ClientId) :
    s.filter (fun y => decide (y ∉ ([] : List ClientId))) = s := by
  have : ∀ y ∈ s, (decide (y ∉ ([] : List ClientId))) = (fun _ : ClientId => true) y := by
    intro y _
    simp
  rw [List.filter_congr this, List.filter_true]

/-- Characterization of the `release_token` draining loop: the promoted
client is the first queued client not in an unexpired cooldown, the queue
keeps what follows it, the promoted client's (expired) cooldown entry is
popped, and the skipped cooldown-bound prefix is evicted from the pending
set. -/
lemma tmDrain_eq (now : ℚ) (q : List ClientId) (cds : Dict ℚ) (pend : List ClientId) :
    tmDrain now q cds pend =
      ((q.dropWhile (inUnexpiredCooldown cds now)).head?,
       (q.dropWhile (inUnexpiredCooldown cds now)).tail,
       (match (q.dropWhile (inUnexpiredCooldown cds now)).head? with
        | some h => dictPop cds h
        | none => cds),
       pend.filter (fun y => decide (y ∉ q.takeWhile (inUnexpiredCooldown cds now)))) := by
  induction q generalizing pend with
  | nil =>
      simp [tmDrain, filter_not_mem_nil]
  | cons c rest ih =>
      cases hget : dictGet? cds c with
      | some cu =>
          by_cases hlt : now < cu
          · have hp : inUnexpiredCooldown cds now c = true := by
              simp [inUnexpiredCooldown, hget, hlt]
            have hstep : tmDrain now (c :: rest) cds pend
                = tmDrain now rest cds (setRemove pend c) := by
              simp [tmDrain, hget, hlt]
            have hdw : (c :: rest).dropWhile (inUnexpiredCooldown cds now)
                = rest.dropWhile (inUnexpiredCooldown cds now) := by
              simp [List.dropWhile_cons, hp]
            have htw : (c :: rest).takeWhile (inUnexpiredCooldown cds now)
                = c :: rest.takeWhile (inUnexpiredCooldown cds now) := by
              simp [List.takeWhile_cons, hp]
            rw [hstep, ih (setRemove pend c), hdw, htw]
            simp only [Prod.mk.injEq]
            refine ⟨trivial, trivial, trivial, ?_⟩
            simp only [setRemove, List.filter_filter]
            apply List.filter_congr
            intro y _
            by_cases h1 : y = c
            · subst h1
              simp
            · by_cases h2 : y ∈ rest.takeWhile (inUnexpiredCooldown cds now) <;>
                simp [h1, h2]
          · have hp : inUnexpiredCooldown cds now c = false := by
              simp [inUnexpiredCooldown, hget, hlt]
            have hstep : tmDrain now (c :: rest) cds pend
                = (some c, rest, dictPop cds c, pend) := by
              simp [tmDrain, hget, hlt]
            have hdw : (c :: rest).dropWhile (inUnexpiredCooldown cds now) = c :: rest := by
              simp [List.dropWhile_cons, hp]
            have htw : (c :: rest).takeWhile (inUnexpiredCooldown cds now) = [] := by
              simp [List.takeWhile_cons, hp]
            rw [hstep, hdw, htw]
            simp [filter_not_mem_nil]
      | none =>
          have hp : inUnexpiredCooldown cds now c = false := by
            simp [inUnexpiredCooldown, hget]
          have hstep : tmDrain now (c :: rest) cds pend
              = (some c, rest, cds, pend) := by
            simp [tmDrain, hget]
          have hdw : (c :: rest).dropWhile (inUnexpiredCooldown cds now) = c :: rest := by
            simp [List.dropWhile_cons, hp]
          have htw : (c :: rest).takeWhile (inUnexpiredCooldown cds now) = [] := by
            simp [List.takeWhile_cons, hp]
          rw [hstep, hdw, htw]
          simp [filter_not_mem_nil, dictPop_eq_of_get_none hget]

/-! ## Concrete token-manager states used by witnesses and counterexamples -/

/-- A hint-token state whose queue front `B` is inside an unexpired cooldown
(expiry 100, checked at instant 0). -/
def tmStateCooldownFront : TokenManager :=
  ⟨"hint", some "A", ["B"], some 0, [("B", 100)], 30, ["A", "B"]⟩

/-- A hint-token state with holder `A`, queue `[B, C]`, and `B` cooldown-bound. -/
def tmStateSkipB : TokenManager :=
  ⟨"hint", some "A", ["B", "C"], some 0, [("B", 100)], 30, ["A", "B", "C"]⟩

/-- A hint-token state with holder `A` and empty queue. -/
def tmStateHolderOnly : TokenManager :=
  ⟨"hint", some "A", [], some 0, [], 30, ["A"]⟩

/-- C1 counterexample: `force_release_token` does NOT perform the
cooldown-filtered queue drain of `release_token`.  In `tmStateCooldownFront`
the queue front `B` is inside an unexpired cooldown; the release-style drain
would skip `B`, evict it from the pending set and leave no holder, but
`force_release_token` promotes `B` and keeps it pending. -/
theorem force_release_not_cooldown_filtered :
    inUnexpiredCooldown tmStateCooldownFront.cooldowns 0 "B" = true ∧
    (tmForceReleaseToken tmStateCooldownFront 0).2.token_holder = some "B" ∧
    "B" ∈ (tmForceReleaseToken tmStateCooldownFront 0).2.pending_requests ∧
    (tmDrain 0 tmStateCooldownFront.request_queue tmStateCooldownFront.cooldowns
      tmStateCooldownFront.pending_requests).1 = none ∧
    "B" ∉ (tmDrain 0 tmStateCooldownFront.request_queue tmStateCooldownFront.cooldowns
      tmStateCooldownFront.pending_requests).2.2.2 := by
  decide

/-- C1 (amended): `force_release_token` removes the current holder without
recording any cooldown (the cooldown table is untouched) and promotes the
queue front unconditionally — one pop, no cooldown filtering; `release_token`
called by the holder always records the cooldown expiry
`now + cooldown_duration` for the releasing holder. -/
theorem force_release_no_cooldown_release_cooldown :
    (∀ (s : TokenManager) (now : ℚ),
      (tmForceReleaseToken s now).1.1 = s.token_holder ∧
      (tmForceReleaseToken s now).2.cooldowns = s.cooldowns ∧
      (tmForceReleaseToken s now).1.2 = s.request_queue.head? ∧
      (tmForceReleaseToken s now).2.token_holder = s.request_queue.head? ∧
      (tmForceReleaseToken s now).2.request_queue = s.request_queue.tail) ∧
    (∀ (s : TokenManager) (c : ClientId) (now : ℚ),
      s.token_holder = some c → c ∉ s.request_queue →
      dictGet? (tmReleaseToken s c now).2.cooldowns c = some (now + s.cooldown_duration)) := by
  constructor
  · intro s now
    cases hq : s.request_queue with
    | nil => simp [tmForceReleaseToken, hq]
    | cons a t => simp [tmForceReleaseToken, hq]
  · intro s c now h hnq
    have hcond : ¬ s.token_holder ≠ some c := by simp [h]
    simp only [tmReleaseToken, if_neg hcond, tmDrain_eq]
    cases hq : s.request_queue.dropWhile
        (inUnexpiredCooldown (dictSet s.cooldowns c (now + s.cooldown_duration)) now) with
    | nil => simp [hq, dictGet?_set_self]
    | cons a t =>
        have ha : a ∈ s.request_queue :=
          (List.dropWhile_sublist _).subset (hq ▸ List.mem_cons_self a t)
        have hac : c ≠ a := fun hca => hnq (hca ▸ ha)
        simp [List.head?_cons, dictGet?_pop_ne _ hac, dictGet?_set_self]

/-- Witness for C1: applying the release part at a concrete state records the
cooldown expiry `10 + 30` for the releasing holder `A`. -/
theorem force_release_no_cooldown_release_cooldown_witness :
    dictGet? (tmReleaseToken tmStateHolderOnly "A" 10).2.cooldowns "A" = some (10 + 30) :=
  force_release_no_cooldown_release_cooldown.2 tmStateHolderOnly "A" 10 rfl (by decide)

/-- C4: `release_token` called by the current holder succeeds and drains the
queue from the front: the new holder is the first queued client not inside an
unexpired cooldown (with respect to the cooldown table holding the releaser's
fresh entry), it gets a fresh acquisition instant, the queue keeps what
follows it, and the skipped cooldown-bound prefix is evicted from the pending
set; if no such client exists the token becomes free. -/
theorem release_token_drain_characterization
    (s : TokenManager) (c : ClientId) (now : ℚ) (h : s.token_holder = some c) :
    (tmReleaseToken s c now).1 =
      (true, (s.request_queue.dropWhile
        (inUnexpiredCooldown (dictSet s.cooldowns c (now + s.cooldown_duration)) now)).head?) ∧
    (tmReleaseToken s c now).2.token_holder =
      (s.request_queue.dropWhile
        (inUnexpiredCooldown (dictSet s.cooldowns c (now + s.cooldown_duration)) now)).head? ∧
    (tmReleaseToken s c now).2.request_queue =
      (s.request_queue.dropWhile
        (inUnexpiredCooldown (dictSet s.cooldowns c (now + s.cooldown_duration)) now)).tail ∧
    (tmReleaseToken s c now).2.token_acquired_time =
      ((s.request_queue.dropWhile
        (inUnexpiredCooldown (dictSet s.cooldowns c (now + s.cooldown_duration)) now)).head?).map
        (fun _ => now) ∧
    (tmReleaseToken s c now).2.pending_requests =
      (setRemove s.pending_requests c).filter
        (fun y => decide (y ∉ s.request_queue.takeWhile
          (inUnexpiredCooldown (dictSet s.cooldowns c (now + s.cooldown_duration)) now))) := by
  have hcond : ¬ s.token_holder ≠ some c := by simp [h]
  simp only [tmReleaseToken, if_neg hcond, tmDrain_eq]
  cases hq : s.request_queue.dropWhile
      (inUnexpiredCooldown (dictSet s.cooldowns c (now + s.cooldown_duration)) now) with
  | nil => simp [hq]
  | cons a t => simp [hq]

/-- Witness for C4: at `tmStateSkipB` (holder `A`, queue `[B, C]`, `B`
cooldown-bound at instant 0) releasing promotes `C`, empties the queue, and
evicts `B` from the pending set. -/
theorem release_token_drain_characterization_witness :
    (tmReleaseToken tmStateSkipB "A" 0).1 = (true, some "C") ∧
    (tmReleaseToken tmStateSkipB "A" 0).2.request_queue = [] ∧
    (tmReleaseToken tmStateSkipB "A" 0).2.pending_requests = ["C"] := by
  have h := release_token_drain_characterization tmStateSkipB "A" 0 rfl
  refine ⟨?_, ?_, ?_⟩
  · rw [h.1]
    decide
  · rw [h.2.2.1]
    decide
  · rw [h.2.2.2.2]
    decide

/-! ## `server/deadlock_detector.py` — `DeadlockDetector` -/

/-- `DeadlockDetector.check_for_deadlocks()`: reads the two managers' status
snapshots; when both tokens are held and the two holders each wait in the
other token's queue, resolves by force-releasing the hint token
(`_resolve_deadlock`).  Returns the boolean result and the (possibly
force-released) hint manager; the skip manager is never mutated. -/
def checkForDeadlocks (hint skip : TokenManager) (now : ℚ) : Bool × TokenManager :=
  let hint_status := tmGetStatus hint
  let skip_status := tmGetStatus skip
  match hint_status.holder, skip_status.holder with
  | some hint_holder, some skip_holder =>
      if hint_holder ∈ skip_status.queue ∧ skip_holder ∈ hint_status.queue then
        (true, (tmForceReleaseToken hint now).2)
      else (false, hint)
  | _, _ => (false, hint)

/-- After a forced release the hint holder is the original queue front. -/
lemma tmForceReleaseToken_holder_eq_head (s : TokenManager) (now : ℚ) :
    (tmForceReleaseToken s now).2.token_holder = s.request_queue.head? := by
  cases hq : s.request_queue with
  | nil => simp [tmForceReleaseToken, hq]
  | cons a t => simp [tmForceReleaseToken, hq]

/-- C2: `check_for_deadlocks` returns true iff both holders exist and each
waits in the other token's queue; and on a true result, provided the hint
holder is not itself in the hint queue (a reachable-state invariant), the
post-resolution hint holder is the original hint queue front and differs from
the original hint holder. -/
theorem check_for_deadlocks_iff_and_resolution (hint skip : TokenManager) (now : ℚ) :
    ((checkForDeadlocks hint skip now).1 = true ↔
      ∃ hh sh, hint.token_holder = some hh ∧ skip.token_holder = some sh ∧
        hh ∈ skip.request_queue ∧ sh ∈ hint.request_queue) ∧
    (∀ hh, hint.token_holder = some hh → hh ∉ hint.request_queue →
      (checkForDeadlocks hint skip now).1 = true →
      (checkForDeadlocks hint skip now).2.token_holder = hint.request_queue.head? ∧
      (checkForDeadlocks hint skip now).2.token_holder ≠ some hh) := by
  cases hh0 : hint.token_holder with
  | none =>
      have hchk : checkForDeadlocks hint skip now = (false, hint) := by
        simp [checkForDeadlocks, tmGetStatus, hh0]
      constructor
      · simp [hchk]
      · intro hh heq
        exact absurd heq (by simp)
  | some hh =>
      cases sh0 : skip.token_holder with
      | none =>
          have hchk : checkForDeadlocks hint skip now = (false, hint) := by
            simp [checkForDeadlocks, tmGetStatus, hh0, sh0]
          constructor
          · simp [hchk]
          · intro hh' _ _ htrue
            rw [hchk] at htrue
            simp at htrue
      | some sh =>
          by_cases hcond : hh ∈ skip.request_queue ∧ sh ∈ hint.request_queue
          · have hchk : checkForDeadlocks hint skip now
                = (true, (tmForceReleaseToken hint now).2) := by
              simp [checkForDeadlocks, tmGetStatus, hh0, sh0, hcond]
            constructor
            · rw [hchk]
              constructor
              · intro _
                exact ⟨hh, sh, rfl, rfl, hcond.1, hcond.2⟩
              · intro _
                rfl
            · intro hh' heq hnq _
              injection heq with heq'
              subst heq'
              rw [hchk]
              refine ⟨tmForceReleaseToken_holder_eq_head hint now, ?_⟩
              rw [tmForceReleaseToken_holder_eq_head hint now]
              cases hq : hint.request_queue with
              | nil =>
                  rw [hq] at hcond
                  cases hcond.2
              | cons a t =>
                  intro hcontra
                  injection hcontra with hax
                  apply hnq
                  rw [hq, hax]
                  exact List.mem_cons_self hh t
          · have hchk : checkForDeadlocks hint skip now = (false, hint) := by
              simp only [checkForDeadlocks, tmGetStatus, hh0, sh0]
              rw [if_neg hcond]
            constructor
            · rw [hchk]
              simp only [Bool.false_eq_true, false_iff]
              rintro ⟨hh', sh', h1, h2, h3, h4⟩
              injection h1 with e1
              injection h2 with e2
              subst e1
              subst e2
              exact hcond ⟨h3, h4⟩
            · intro hh' _ _ htrue
              rw [hchk] at htrue
              simp at htrue

/-- A deadlocked pair: hint held by `A` with `B` queued, skip held by `B`
with `A` queued. -/
def tmHintDeadlocked : TokenManager :=
  ⟨"hint", some "A", ["B"], some 0, [], 30, ["A", "B"]⟩

/-- The matching skip manager for `tmHintDeadlocked`. -/
def tmSkipDeadlocked : TokenManager :=
  ⟨"skip", some "B", ["A"], some 0, [], 30, ["B", "A"]⟩

/-- Witness for C2: on the concrete circular wait the detector reports a
deadlock and the hint holder changes from `A` to the queue front `B`. -/
theorem check_for_deadlocks_witness :
    (checkForDeadlocks tmHintDeadlocked tmSkipDeadlocked 0).1 = true ∧
    (checkForDeadlocks tmHintDeadlocked tmSkipDeadlocked 0).2.token_holder
      = tmHintDeadlocked.request_queue.head? ∧
    (checkForDeadlocks tmHintDeadlocked tmSkipDeadlocked 0).2.token_holder ≠ some "A" := by
  have h := check_for_deadlocks_iff_and_resolution tmHintDeadlocked tmSkipDeadlocked 0
  have htrue : (checkForDeadlocks tmHintDeadlocked tmSkipDeadlocked 0).1 = true :=
    h.1.mpr ⟨"A", "B", rfl, rfl, by decide, by decide⟩
  have hres := h.2 "A" rfl (by decide) htrue
  exact ⟨htrue, hres.1, hres.2⟩

/-! ## Reachable-state invariants of `TokenManager` -/

/-- Structural invariant of `TokenManager`: the queue has no duplicates, the
holder is never queued, queued clients and the holder are pending, and a free
token has an empty queue. -/
def TMInv (s : TokenManager) : Prop :=
  s.request_queue.Nodup ∧
  (∀ h, s.token_holder = some h → h ∉ s.request_queue) ∧
  (∀ x ∈ s.request_queue, x ∈ s.pending_requests) ∧
  (∀ h, s.token_holder = some h → h ∈ s.pending_requests) ∧
  (s.token_holder = none → s.request_queue = [])

lemma TMInv_grantOrQueue (s : TokenManager) (c : ClientId) (now : ℚ)
    (hinv : TMInv s) (hq : c ∉ s.request_queue) (hh : s.token_holder ≠ some c) :
    TMInv (tmGrantOrQueue s c now).2 := by
  obtain ⟨h1, h2, h3, h4, h5⟩ := hinv
  by_cases hfree : s.token_holder = none ∧ s.request_queue = []
  · simp only [tmGrantOrQueue, if_pos hfree]
    refine ⟨h1, ?_, ?_, ?_, ?_⟩
    · intro h' _
      rw [hfree.2]
      exact List.not_mem_nil h'
    · intro x hx
      exact (mem_setAdd).mpr (Or.inr (h3 x hx))
    · intro h' hh'
      injection hh' with hc
      exact (mem_setAdd).mpr (Or.inl hc.symm)
    · intro habs
      cases habs
  · simp only [tmGrantOrQueue, if_neg hfree]
    refine ⟨?_, ?_, ?_, ?_, ?_⟩
    · rw [List.nodup_append]
      exact ⟨h1, List.nodup_singleton c, fun x hx hxc => hq ((List.mem_singleton.mp hxc) ▸ hx)⟩
    · intro h' hh' hmem
      rcases List.mem_append.mp hmem with hin | hone
      · exact h2 h' hh' hin
      · exact hh ((List.mem_singleton.mp hone) ▸ hh')
    · intro x hx
      rcases List.mem_append.mp hx with hin | hone
      · exact (mem_setAdd).mpr (Or.inr (h3 x hin))
      · exact (mem_setAdd).mpr (Or.inl (List.mem_singleton.mp hone))
    · intro h' hh'
      exact (mem_setAdd).mpr (Or.inr (h4 h' hh'))
    · intro habs
      exact absurd ⟨habs, h5 habs⟩ hfree

lemma TMInv_cooldowns_update (s : TokenManager) (d : Dict ℚ) :
    TMInv { s with cooldowns := d } ↔ TMInv s := by
  constructor <;> (intro h; exact h)

lemma TMInv_requestAfterCooldown (s : TokenManager) (c : ClientId) (now : ℚ)
    (hinv : TMInv s) : TMInv (tmRequestAfterCooldown s c now).2 := by
  by_cases hpend : c ∈ s.pending_requests
  · simp only [tmRequestAfterCooldown, if_pos hpend]
    cases hidx : s.request_queue.findIdx? (fun q => q == c) with
    | some position => exact hinv
    | none =>
        have hq : c ∉ s.request_queue := by
          intro hc
          have := (List.findIdx?_eq_none_iff.mp hidx) c hc
          simp at this
        by_cases hold : s.token_holder = some c
        · simp only [if_pos hold]
          exact hinv
        · simp only [if_neg hold]
          exact TMInv_grantOrQueue s c now hinv hq hold
  · simp only [tmRequestAfterCooldown, if_neg hpend]
    have hq : c ∉ s.request_queue := fun hc => hpend (hinv.2.2.1 c hc)
    have hold : s.token_holder ≠ some c := fun he => hpend (hinv.2.2.2.1 c he)
    exact TMInv_grantOrQueue s c now hinv hq hold

lemma TMInv_request (s : TokenManager) (c : ClientId) (now : ℚ)
    (hinv : TMInv s) : TMInv (tmRequestToken s c now).2 := by
  unfold tmRequestToken
  cases hcd : dictGet? s.cooldowns c with
  | some cu =>
      by_cases hlt : now < cu
      · simp only [if_pos hlt]
        exact hinv
      · simp only [if_neg hlt]
        exact TMInv_requestAfterCooldown _ c now ((TMInv_cooldowns_update s _).mpr hinv)
  | none => exact TMInv_requestAfterCooldown s c now hinv

lemma takeWhile_dropWhile_disjoint {q : List ClientId} (p : ClientId → Bool)
    (h1 : q.Nodup) {x : ClientId} (hx : x ∈ q.dropWhile p) : x ∉ q.takeWhile p := by
  intro hxt
  have hsplit := List.takeWhile_append_dropWhile p q
  rw [← hsplit] at h1
  exact (List.nodup_append.mp h1).2.2 hxt hx

lemma TMInv_release (s : TokenManager) (c : ClientId) (now : ℚ)
    (hinv : TMInv s) : TMInv (tmReleaseToken s c now).2 := by
  obtain ⟨h1, h2, h3, h4, h5⟩ := hinv
  by_cases hold : s.token_holder ≠ some c
  · simp only [tmReleaseToken, if_pos hold]
    exact ⟨h1, h2, h3, h4, h5⟩
  · simp only [tmReleaseToken, if_neg hold, tmDrain_eq]
    push_neg at hold
    cases hdrop : s.request_queue.dropWhile
        (inUnexpiredCooldown (dictSet s.cooldowns c (now + s.cooldown_duration)) now) with
    | nil =>
        refine ⟨List.nodup_nil, ?_, ?_, ?_, ?_⟩
        · intro h' hh'
          cases hh'
        · intro x hx
          cases hx
        · intro h' hh'
          cases hh'
        · intro _
          rfl
    | cons a t =>
        simp only [List.head?_cons, List.tail_cons]
        have hsub : (a :: t).Sublist s.request_queue := by
          rw [← hdrop]
          exact List.dropWhile_sublist _
        have hnd : (a :: t).Nodup := hsub.nodup h1
        have hcq : c ∉ s.request_queue := h2 c hold
        have hmemq : ∀ x ∈ (a :: t), x ∈ s.request_queue := fun x hx => hsub.subset hx
        have hnotw : ∀ x ∈ (a :: t), x ∉ s.request_queue.takeWhile
            (inUnexpiredCooldown (dictSet s.cooldowns c (now + s.cooldown_duration)) now) := by
          intro x hx
          exact takeWhile_dropWhile_disjoint _ h1 (hdrop ▸ hx)
        refine ⟨(List.nodup_cons.mp hnd).2, ?_, ?_, ?_, ?_⟩
        · intro h' hh'
          injection hh' with ha
          subst ha
          exact (List.nodup_cons.mp hnd).1
        · intro x hx
          have hxq : x ∈ s.request_queue := hmemq x (List.mem_cons_of_mem a hx)
          rw [List.mem_filter]
          refine ⟨(mem_setRemove).mpr ⟨h3 x hxq, fun hxc => hcq (hxc ▸ hxq)⟩, ?_⟩
          simp only [decide_eq_true_eq]
          exact hnotw x (List.mem_cons_of_mem a hx)
        · intro h' hh'
          injection hh' with ha
          subst ha
          have haq : a ∈ s.request_queue := hmemq a (List.mem_cons_self a t)
          rw [List.mem_filter]
          refine ⟨(mem_setRemove).mpr ⟨h3 a haq, fun hxc => hcq (hxc ▸ haq)⟩, ?_⟩
          simp only [decide_eq_true_eq]
          exact hnotw a (List.mem_cons_self a t)
        · intro habs
          cases habs

lemma TMInv_force (s : TokenManager) (now : ℚ)
    (hinv : TMInv s) : TMInv (tmForceReleaseToken s now).2 := by
  obtain ⟨h1, h2, h3, h4, h5⟩ := hinv
  cases hq : s.request_queue with
  | nil =>
      simp only [tmForceReleaseToken, hq]
      refine ⟨List.nodup_nil, ?_, ?_, ?_, ?_⟩
      · intro h' hh'
        cases hh'
      · intro x hx
        cases hx
      · intro h' hh'
        cases hh'
      · intro _
        rfl
  | cons a t =>
      cases hold : s.token_holder with
      | none => exact absurd (hq ▸ h5 hold) (List.cons_ne_nil a t)
      | some p =>
          have hpq : p ∉ s.request_queue := h2 p hold
          have hnd : (a :: t).Nodup := hq ▸ h1
          simp only [tmForceReleaseToken, hq, hold]
          refine ⟨(List.nodup_cons.mp hnd).2, ?_, ?_, ?_, ?_⟩
          · intro h' hh'
            injection hh' with ha
            subst ha
            exact (List.nodup_cons.mp hnd).1
          · intro x hx
            have hxq : x ∈ s.request_queue := hq ▸ List.mem_cons_of_mem a hx
            exact (mem_setRemove).mpr ⟨h3 x hxq, fun hxp => hpq (hxp ▸ hxq)⟩
          · intro h' hh'
            injection hh' with ha
            subst ha
            have haq : a ∈ s.request_queue := hq ▸ List.mem_cons_self a t
            exact (mem_setRemove).mpr ⟨h3 a haq, fun hxp => hpq (hxp ▸ haq)⟩
          · intro habs
            cases habs

/-- The states of a `TokenManager` reachable from `__init__` by any sequence
of `request_token`, `release_token` and `force_release_token` calls, at
arbitrary instants. -/
inductive TMReachable : TokenManager → Prop where
  | init (resource_name : String) (cooldown_duration : ℚ) :
      TMReachable (tmInit resource_name cooldown_duration)
  | request (s : TokenManager) (c : ClientId) (now : ℚ) :
      TMReachable s → TMReachable (tmRequestToken s c now).2
  | release (s : TokenManager) (c : ClientId) (now : ℚ) :
      TMReachable s → TMReachable (tmReleaseToken s c now).2
  | force (s : TokenManager) (now : ℚ) :
      TMReachable s → TMReachable (tmForceReleaseToken s now).2

lemma TMReachable_inv {s : TokenManager} (h : TMReachable s) : TMInv s := by
  induction h with
  | init name cd =>
      refine ⟨List.nodup_nil, ?_, ?_, ?_, ?_⟩
      · intro h' hh'
        cases hh'
      · intro x hx
        cases hx
      · intro h' hh'
        cases hh'
      · intro _
        rfl
  | request s c now _ ih => exact TMInv_request s c now ih
  | release s c now _ ih => exact TMInv_release s c now ih
  | force s now _ ih => exact TMInv_force s now ih

/-! ## `server/leaderboard_token.py` — `LeaderboardToken` -/

/-- Abstract rendering of the message strings returned by
`LeaderboardToken`. -/
inductive LBMsg where
  | cooldownRemaining (r : ℚ)
  | granted
  | queuedAt (position : ℕ)
  | notHolder
  | passedTo (c : ClientId)
  | released
deriving DecidableEq

/-- State of `LeaderboardToken` (`server/leaderboard_token.py`). -/
structure LeaderboardToken where
  has_token : Bool
  queue : List ClientId
  current_holder : Option ClientId
  last_used : Dict ℚ
  cooldown_period : ℚ
deriving DecidableEq

/-- `LeaderboardToken.__init__()`. -/
def lbInit : LeaderboardToken := ⟨true, [], none, [], 30⟩

/-- The grant-or-queue step of `LeaderboardToken.request_token` (lines
24–32): grant when the server holds the token and no client does; otherwise
append the player to the queue unless already queued, reporting the 1-based
queue position. -/
def lbGrantOrQueue (s : LeaderboardToken) (player_id : ClientId) :
    (Bool × LBMsg) × LeaderboardToken :=
  if s.has_token ∧ s.current_holder = none then
    ((true, .granted), { s with current_holder := some player_id })
  else
    let q := if player_id ∈ s.queue then s.queue else s.queue ++ [player_id]
    ((false, .queuedAt (q.findIdx (fun x => x == player_id) + 1)), { s with queue := q })

/-- `LeaderboardToken.request_token(player_id)`. -/
def lbRequestToken (s : LeaderboardToken) (player_id : ClientId) (now : ℚ) :
    (Bool × LBMsg) × LeaderboardToken :=
  match dictGet? s.last_used player_id with
  | some t =>
      if now - t < s.cooldown_period then
        ((false, .cooldownRemaining (s.cooldown_period - (now - t))), s)
      else lbGrantOrQueue s player_id
  | none => lbGrantOrQueue s player_id

/-- `LeaderboardToken.release_token(player_id)`: stamps the releaser's
last-used instant and passes the token to the queue head unconditionally. -/
def lbReleaseToken (s : LeaderboardToken) (player_id : ClientId) (now : ℚ) :
    (Bool × LBMsg) × LeaderboardToken :=
  if s.current_holder ≠ some player_id then ((false, .notHolder), s)
  else
    let lu := dictSet s.last_used player_id now
    match s.queue with
    | next :: rest =>
        ((true, .passedTo next),
         { s with current_holder := some next, queue := rest, last_used := lu })
    | [] =>
        ((true, .released), { s with current_holder := none, last_used := lu })

/-- Values appearing in the status dictionaries returned by the leaderboard
managers. -/
inductive PyVal where
  | str (s : String)
  | int (i : ℤ)
  | bool (b : Bool)
  | pynone
  | strList (l : List String)
deriving DecidableEq

/-- A Python optional-string value. -/
def optVal : Option ClientId → PyVal
  | Option.none => .pynone
  | Option.some c => .str c

/-- `LeaderboardToken.get_status()` with its literal dictionary keys. -/
def lbGetStatus (s : LeaderboardToken) : List (String × PyVal) :=
  [("has_token", .bool s.has_token),
   ("current_holder", optVal s.current_holder),
   ("queue", .strList s.queue)]

/-! ## `server/raymond_server.py` — `RaymondServer` -/

/-- Abstract rendering of the message strings returned by `RaymondServer`. -/
inductive RSMsg where
  | inCooldown (r : ℤ)
  | alreadyHeld
  | alreadyQueued (position : ℕ)
  | granted
  | multiplePlayers
  | inQueue
deriving DecidableEq

/-- State of `RaymondServer` (`server/raymond_server.py`). -/
structure RaymondServer where
  resource_name : String
  has_token : Bool
  current_holder : Option ClientId
  queue : List ClientId
  cooldowns : Dict ℚ
  cooldown_duration : ℚ
deriving DecidableEq

/-- `RaymondServer.__init__(resource_name, cooldown_duration)`. -/
def rsInit (resource_name : String) (cooldown_duration : ℚ) : RaymondServer :=
  ⟨resource_name, true, none, [], [], cooldown_duration⟩

/-- `request_token` after the cooldown gate (lines 40–67): already-holder
report, already-queued position report, immediate grant, or enqueue. -/
def rsAfterCooldown (s : RaymondServer) (client_id : ClientId) :
    (Bool × ℤ × RSMsg) × RaymondServer :=
  if s.current_holder = some client_id then ((true, 0, .alreadyHeld), s)
  else
    match s.queue.findIdx? (fun q => q == client_id) with
    | some position => ((false, (position : ℤ), .alreadyQueued position), s)
    | none =>
        if s.has_token ∧ s.current_holder = none then
          ((true, 0, .granted),
           { s with has_token := false, current_holder := some client_id })
        else
          let q := s.queue ++ [client_id]
          if 1 < q.length ∨ s.current_holder ≠ none then
            ((false, (q.length : ℤ) - 1, .multiplePlayers), { s with queue := q })
          else
            ((false, (q.length : ℤ) - 1, .inQueue), { s with queue := q })

/-- `RaymondServer.request_token(client_id, timestamp)`. -/
def rsRequestToken (s : RaymondServer) (client_id : ClientId) (_timestamp now : ℚ) :
    (Bool × ℤ × RSMsg) × RaymondServer :=
  match dictGet? s.cooldowns client_id with
  | some cooldown_until =>
      if now < cooldown_until then
        ((false, -1, .inCooldown (pyInt (cooldown_until - now))), s)
      else rsAfterCooldown { s with cooldowns := dictPop s.cooldowns client_id } client_id
  | none => rsAfterCooldown s client_id

/-- The queue-draining loop of `RaymondServer.release_token` (lines 85–98):
like `TokenManager`'s drain but with no pending set. -/
def rsDrain (now : ℚ) : List ClientId → Dict ℚ → Option ClientId × List ClientId × Dict ℚ
  | [], cooldowns => (none, [], cooldowns)
  | next_client :: rest, cooldowns =>
      match dictGet? cooldowns next_client with
      | some cooldown_until =>
          if now < cooldown_until then rsDrain now rest cooldowns
          else (some next_client, rest, dictPop cooldowns next_client)
      | none => (some next_client, rest, cooldowns)

/-- `RaymondServer.release_token(client_id)`. -/
def rsReleaseToken (s : RaymondServer) (client_id : ClientId) (now : ℚ) :
    (Bool × Option ClientId) × RaymondServer :=
  if s.current_holder ≠ some client_id then ((false, none), s)
  else
    let cooldowns1 := dictSet s.cooldowns client_id (now + s.cooldown_duration)
    let r := rsDrain now s.queue cooldowns1
    match r.1 with
    | some next_holder =>
        ((true, some next_holder),
         { s with current_holder := some next_holder, has_token := false,
                  queue := r.2.1, cooldowns := r.2.2 })
    | none =>
        ((true, none),
         { s with current_holder := none, has_token := true,
                  queue := r.2.1, cooldowns := r.2.2 })

/-- `RaymondServer.get_status()` with its literal dictionary keys. -/
def rsGetStatus (s : RaymondServer) : List (String × PyVal) :=
  [("resource", .str s.resource_name),
   ("holder", optVal s.current_holder),
   ("queue", .strList s.queue),
   ("queue_length", .int (s.queue.length : ℤ))]

/-! ## Reachable-state invariants of the leaderboard managers -/

/-- Structural invariant of `RaymondServer`: duplicate-free queue and the
holder never queued. -/
def RSInv (s : RaymondServer) : Prop :=
  s.queue.Nodup ∧ (∀ h, s.current_holder = some h → h ∉ s.queue)

lemma rsDrain_holder_queue (now : ℚ) (q : List ClientId) (cds : Dict ℚ) :
    (rsDrain now q cds).1 = (q.dropWhile (inUnexpiredCooldown cds now)).head? ∧
    (rsDrain now q cds).2.1 = (q.dropWhile (inUnexpiredCooldown cds now)).tail := by
  induction q with
  | nil => simp [rsDrain]
  | cons c rest ih =>
      cases hget : dictGet? cds c with
      | some cu =>
          by_cases hlt : now < cu
          · have hp : inUnexpiredCooldown cds now c = true := by
              simp [inUnexpiredCooldown, hget, hlt]
            have hdw : (c :: rest).dropWhile (inUnexpiredCooldown cds now)
                = rest.dropWhile (inUnexpiredCooldown cds now) := by
              simp [List.dropWhile_cons, hp]
            have hstep : rsDrain now (c :: rest) cds = rsDrain now rest cds := by
              simp [rsDrain, hget, hlt]
            rw [hstep, hdw]
            exact ih
          · have hp : inUnexpiredCooldown cds now c = false := by
              simp [inUnexpiredCooldown, hget, hlt]
            have hdw : (c :: rest).dropWhile (inUnexpiredCooldown cds now) = c :: rest := by
              simp [List.dropWhile_cons, hp]
            have hstep : rsDrain now (c :: rest) cds
                = (some c, rest, dictPop cds c) := by
              simp [rsDrain, hget, hlt]
            rw [hstep, hdw]
            exact ⟨rfl, rfl⟩
      | none =>
          have hp : inUnexpiredCooldown cds now c = false := by
            simp [inUnexpiredCooldown, hget]
          have hdw : (c :: rest).dropWhile (inUnexpiredCooldown cds now) = c :: rest := by
            simp [List.dropWhile_cons, hp]
          have hstep : rsDrain now (c :: rest) cds = (some c, rest, cds) := by
            simp [rsDrain, hget]
          rw [hstep, hdw]
          exact ⟨rfl, rfl⟩

lemma RSInv_request (s : RaymondServer) (c : ClientId) (ts now : ℚ)
    (hinv : RSInv s) : RSInv (rsRequestToken s c ts now).2 := by
  obtain ⟨h1, h2⟩ := hinv
  have hafter : ∀ s' : RaymondServer, s'.queue = s.queue →
      s'.current_holder = s.current_holder → RSInv (rsAfterCooldown s' c).2 := by
    intro s' hq' hh'
    unfold rsAfterCooldown
    by_cases hold : s'.current_holder = some c
    · simp only [if_pos hold]
      exact ⟨hq' ▸ h1, fun h hh => hq' ▸ h2 h (hh' ▸ hh)⟩
    · simp only [if_neg hold]
      cases hidx : s'.queue.findIdx? (fun q => q == c) with
      | some position => exact ⟨hq' ▸ h1, fun h hh => hq' ▸ h2 h (hh' ▸ hh)⟩
      | none =>
          have hnq : c ∉ s'.queue := by
            intro hc
            have := (List.findIdx?_eq_none_iff.mp hidx) c hc
            simp at this
          by_cases hfree : s'.has_token = true ∧ s'.current_holder = none
          · simp only [if_pos hfree]
            refine ⟨hq' ▸ h1, ?_⟩
            intro h hh
            injection hh with hh
            subst hh
            exact hq' ▸ (hq' ▸ hnq)
          · simp only [if_neg hfree]
            have hnodup : (s'.queue ++ [c]).Nodup := by
              rw [List.nodup_append]
              exact ⟨hq' ▸ h1, List.nodup_singleton c,
                fun x hx hxc => hnq ((List.mem_singleton.mp hxc) ▸ hx)⟩
            have hnotin : ∀ h, s'.current_holder = some h → h ∉ s'.queue ++ [c] := by
              intro h hh hmem
              rcases List.mem_append.mp hmem with hin | hone
              · exact h2 h (hh' ▸ hh) (hq' ▸ hin)
              · exact hold ((List.mem_singleton.mp hone) ▸ hh)
            by_cases hmany : 1 < (s'.queue ++ [c]).length ∨ s'.current_holder ≠ none
            · simp only [if_pos hmany]
              exact ⟨hnodup, hnotin⟩
            · simp only [if_neg hmany]
              exact ⟨hnodup, hnotin⟩
  unfold rsRequestToken
  cases hget : dictGet? s.cooldowns c with
  | some cu =>
      by_cases hlt : now < cu
      · simp only [if_pos hlt]
        exact ⟨h1, h2⟩
      · simp only [if_neg hlt]
        exact hafter _ rfl rfl
  | none => exact hafter s rfl rfl

lemma RSInv_release (s : RaymondServer) (c : ClientId) (now : ℚ)
    (hinv : RSInv s) : RSInv (rsReleaseToken s c now).2 := by
  obtain ⟨h1, h2⟩ := hinv
  by_cases hold : s.current_holder ≠ some c
  · simp only [rsReleaseToken, if_pos hold]
    exact ⟨h1, h2⟩
  · simp only [rsReleaseToken, if_neg hold]
    have hd := rsDrain_holder_queue now s.queue
      (dictSet s.cooldowns c (now + s.cooldown_duration))
    cases hr : (rsDrain now s.queue (dictSet s.cooldowns c (now + s.cooldown_duration))).1 with
    | none =>
        simp only [hr]
        refine ⟨?_, ?_⟩
        · rw [hd.2]
          exact ((List.tail_sublist _).trans (List.dropWhile_sublist _)).nodup h1
        · intro h hh
          cases hh
    | some a =>
        simp only [hr]
        rw [hr] at hd
        cases hdrop : s.queue.dropWhile
            (inUnexpiredCooldown (dictSet s.cooldowns c (now + s.cooldown_duration)) now) with
        | nil =>
            rw [hdrop] at hd
            cases hd.1
        | cons b t =>
            rw [hdrop] at hd
            have hab : a = b := Option.some.inj hd.1
            subst hab
            have hsub : (a :: t).Sublist s.queue := by
              rw [← hdrop]
              exact List.dropWhile_sublist _
            have hnd : (a :: t).Nodup := hsub.nodup h1
            refine ⟨?_, ?_⟩
            · rw [hd.2]
              exact (List.nodup_cons.mp hnd).2
            · intro h hh
              injection hh with hh
              subst hh
              rw [hd.2]
              exact (List.nodup_cons.mp hnd).1

/-- The states of a `RaymondServer` reachable from `__init__` by any sequence
of `request_token` and `release_token` calls, at arbitrary instants. -/
inductive RSReachable : RaymondServer → Prop where
  | init (resource_name : String) (cooldown_duration : ℚ) :
      RSReachable (rsInit resource_name cooldown_duration)
  | request (s : RaymondServer) (c : ClientId) (ts now : ℚ) :
      RSReachable s → RSReachable (rsRequestToken s c ts now).2
  | release (s : RaymondServer) (c : ClientId) (now : ℚ) :
      RSReachable s → RSReachable (rsReleaseToken s c now).2

lemma RSReachable_inv {s : RaymondServer} (h : RSReachable s) : RSInv s := by
  induction h with
  | init name cd =>
      refine ⟨List.nodup_nil, ?_⟩
      intro h' hh'
      cases hh'
  | request s c ts now _ ih => exact RSInv_request s c ts now ih
  | release s c now _ ih => exact RSInv_release s c now ih

/-- The states of a `LeaderboardToken` reachable from `__init__` by any
sequence of `request_token` and `release_token` calls. -/
inductive LBReachable : LeaderboardToken → Prop where
  | init : LBReachable lbInit
  | request (s : LeaderboardToken) (c : ClientId) (now : ℚ) :
      LBReachable s → LBReachable (lbRequestToken s c now).2
  | release (s : LeaderboardToken) (c : ClientId) (now : ℚ) :
      LBReachable s → LBReachable (lbReleaseToken s c now).2

lemma LBReachable_nodup {s : LeaderboardToken} (h : LBReachable s) : s.queue.Nodup := by
  induction h with
  | init => exact List.nodup_nil
  | request s c now _ ih =>
      unfold lbRequestToken
      cases hget : dictGet? s.last_used c with
      | some t =>
          by_cases hlt : now - t < s.cooldown_period
          · simp only [if_pos hlt]
            exact ih
          · simp only [if_neg hlt]
            unfold lbGrantOrQueue
            by_cases hfree : s.has_token = true ∧ s.current_holder = none
            · simp only [if_pos hfree]
              exact ih
            · simp only [if_neg hfree]
              by_cases hmem : c ∈ s.queue
              · simp only [if_pos hmem]
                exact ih
              · simp only [if_neg hmem]
                rw [List.nodup_append]
                exact ⟨ih, List.nodup_singleton c,
                  fun x hx hxc => hmem ((List.mem_singleton.mp hxc) ▸ hx)⟩
      | none =>
          unfold lbGrantOrQueue
          by_cases hfree : s.has_token = true ∧ s.current_holder = none
          · simp only [if_pos hfree]
            exact ih
          · simp only [if_neg hfree]
            by_cases hmem : c ∈ s.queue
            · simp only [if_pos hmem]
              exact ih
            · simp only [if_neg hmem]
              rw [List.nodup_append]
              exact ⟨ih, List.nodup_singleton c,
                fun x hx hxc => hmem ((List.mem_singleton.mp hxc) ▸ hx)⟩
  | release s c now _ ih =>
      unfold lbReleaseToken
      by_cases hold : s.current_holder ≠ some c
      · simp only [if_pos hold]
        exact ih
      · simp only [if_neg hold]
        cases hq : s.queue with
        | nil => exact List.nodup_nil
        | cons a t => exact (List.nodup_cons.mp (hq ▸ ih)).2

/-- C5 counterexample: in `LeaderboardToken` the current holder can re-enter
the wait queue.  After client `X` is granted the token and requests again,
the reachable state has `X` both as holder and as a queue member. -/
theorem leaderboard_holder_requeues_counterexample :
    LBReachable (lbRequestToken (lbRequestToken lbInit "X" 0).2 "X" 1).2 ∧
    (lbRequestToken (lbRequestToken lbInit "X" 0).2 "X" 1).2.current_holder = some "X" ∧
    "X" ∈ (lbRequestToken (lbRequestToken lbInit "X" 0).2 "X" 1).2.queue := by
  refine ⟨?_, by decide, by decide⟩
  exact LBReachable.request _ "X" 1 (LBReachable.request _ "X" 0 LBReachable.init)

/-- C5 (amended): in every reachable `TokenManager` state the queue is
duplicate-free and the holder is never simultaneously queued; the same holds
for `RaymondServer`; in every reachable `LeaderboardToken` state the queue is
duplicate-free — but the `LeaderboardToken` holder can re-enter the queue by
re-requesting. -/
theorem queue_invariants_of_reachable :
    (∀ s : TokenManager, TMReachable s →
      s.request_queue.Nodup ∧ ∀ h, s.token_holder = some h → h ∉ s.request_queue) ∧
    (∀ s : RaymondServer, RSReachable s →
      s.queue.Nodup ∧ ∀ h, s.current_holder = some h → h ∉ s.queue) ∧
    (∀ s : LeaderboardToken, LBReachable s → s.queue.Nodup) := by
  refine ⟨?_, ?_, ?_⟩
  · intro s h
    have hinv := TMReachable_inv h
    exact ⟨hinv.1, hinv.2.1⟩
  · intro s h
    exact RSReachable_inv h
  · intro s h
    exact LBReachable_nodup h

/-- Witness for C5: the invariants instantiated at states reached by one
request each. -/
theorem queue_invariants_of_reachable_witness :
    ((tmRequestToken (tmInit "hint" 30) "A" 0).2.request_queue.Nodup ∧
      ∀ h, (tmRequestToken (tmInit "hint" 30) "A" 0).2.token_holder = some h →
        h ∉ (tmRequestToken (tmInit "hint" 30) "A" 0).2.request_queue) ∧
    ((rsRequestToken (rsInit "leaderboard" 30) "A" 0 0).2.queue.Nodup ∧
      ∀ h, (rsRequestToken (rsInit "leaderboard" 30) "A" 0 0).2.current_holder = some h →
        h ∉ (rsRequestToken (rsInit "leaderboard" 30) "A" 0 0).2.queue) ∧
    (lbRequestToken lbInit "A" 0).2.queue.Nodup :=
  ⟨queue_invariants_of_reachable.1 _
      (TMReachable.request _ "A" 0 (TMReachable.init "hint" 30)),
   queue_invariants_of_reachable.2.1 _
      (RSReachable.request _ "A" 0 0 (RSReachable.init "leaderboard" 30)),
   queue_invariants_of_reachable.2.2 _
      (LBReachable.request _ "A" 0 LBReachable.init)⟩

/-- C10: in every reachable `TokenManager` state a free token has an empty
queue, and a request from a client not inside an unexpired cooldown made
while the token is free is granted immediately (never queued). -/
theorem free_token_empty_queue_and_grant (s : TokenManager) (hr : TMReachable s) :
    (s.token_holder = none → s.request_queue = []) ∧
    (∀ (c : ClientId) (now : ℚ), s.token_holder = none →
      inUnexpiredCooldown s.cooldowns now c = false →
      (tmRequestToken s c now).1 = (true, 0, 0) ∧
      (tmRequestToken s c now).2.token_holder = some c ∧
      (tmRequestToken s c now).2.request_queue = []) := by
  have hinv := TMReachable_inv hr
  have hfreequeue := hinv.2.2.2.2
  refine ⟨hfreequeue, ?_⟩
  intro c now hfree hcd
  have hq : s.request_queue = [] := hfreequeue hfree
  have hafter : ∀ s' : TokenManager, s'.token_holder = none → s'.request_queue = [] →
      (tmRequestAfterCooldown s' c now).1 = (true, 0, 0) ∧
      (tmRequestAfterCooldown s' c now).2.token_holder = some c ∧
      (tmRequestAfterCooldown s' c now).2.request_queue = [] := by
    intro s' hf' hq'
    have hgrant : (tmGrantOrQueue s' c now).1 = (true, 0, 0) ∧
        (tmGrantOrQueue s' c now).2.token_holder = some c ∧
        (tmGrantOrQueue s' c now).2.request_queue = [] := by
      simp [tmGrantOrQueue, hf', hq']
    unfold tmRequestAfterCooldown
    by_cases hpend : c ∈ s'.pending_requests
    · simp only [if_pos hpend, hq']
      have hidx : List.findIdx? (fun q => q == c) ([] : List ClientId) = none := rfl
      rw [hidx]
      have hnot : ¬ s'.token_holder = some c := by
        rw [hf']
        intro hcontra
        cases hcontra
      simp only [if_neg hnot]
      exact hgrant
    · simp only [if_neg hpend]
      exact hgrant
  cases hget : dictGet? s.cooldowns c with
  | some cu =>
      have hnlt : ¬ now < cu := by
        intro hlt
        rw [inUnexpiredCooldown, hget] at hcd
        simp [hlt] at hcd
      simp only [tmRequestToken, hget, if_neg hnlt]
      exact hafter _ hfree hq
  | none =>
      simp only [tmRequestToken, hget]
      exact hafter s hfree hq

/-- The reachable `TokenManager` state after `X` acquires and releases:
token free, `X` cooling down until instant 30. -/
def tmFreeWithCooldown : TokenManager :=
  ⟨"hint", none, [], none, [("X", 30)], 30, []⟩

/-- C10 counterexample: a request arriving while the token is free is NOT
always granted — in the reachable free state with `X` cooling down, `X`'s
request at instant 5 is refused (and the state is unchanged, so it is not
queued either). -/
theorem free_token_request_refused_counterexample :
    TMReachable tmFreeWithCooldown ∧
    tmFreeWithCooldown.token_holder = none ∧
    (tmRequestToken tmFreeWithCooldown "X" 5).1.1 = false ∧
    (tmRequestToken tmFreeWithCooldown "X" 5).2 = tmFreeWithCooldown := by
  have hstate : (tmReleaseToken (tmRequestToken (tmInit "hint" 30) "X" 0).2 "X" 0).2
      = tmFreeWithCooldown := by
    have h1 : (tmRequestToken (tmInit "hint" 30) "X" 0).2
        = ⟨"hint", some "X", [], some 0, [], 30, ["X"]⟩ := by decide
    rw [h1]
    simp only [tmReleaseToken, tmDrain, tmFreeWithCooldown, dictGet?, dictSet, setRemove]
    norm_num
  refine ⟨?_, rfl, ?_, ?_⟩
  · rw [← hstate]
    exact TMReachable.release _ "X" 0 (TMReachable.request _ "X" 0 (TMReachable.init "hint" 30))
  · decide
  · decide

/-- Witness for C10: applied to the one-step reachable state where `A`
holds the token, plus the free initial state for the grant part. -/
theorem free_token_empty_queue_and_grant_witness :
    ((tmInit "hint" 30).token_holder = none → (tmInit "hint" 30).request_queue = []) ∧
    (tmRequestToken (tmInit "hint" 30) "A" 0).1 = (true, 0, 0) ∧
    (tmRequestToken (tmInit "hint" 30) "A" 0).2.token_holder = some "A" ∧
    (tmRequestToken (tmInit "hint" 30) "A" 0).2.request_queue = [] := by
  have h := free_token_empty_queue_and_grant (tmInit "hint" 30) (TMReachable.init "hint" 30)
  exact ⟨h.1, h.2 "A" 0 rfl (by decide)⟩

/-- C9 counterexample: `LeaderboardToken.get_status()` does not return the
`{resource, holder, queue, queue_length}` shape — its keys are
`has_token`, `current_holder`, `queue`, with no resource name and no queue
length. -/
theorem leaderboard_status_shape_counterexample :
    (lbGetStatus lbInit).map Prod.fst = ["has_token", "current_holder", "queue"] ∧
    "resource" ∉ (lbGetStatus lbInit).map Prod.fst ∧
    "queue_length" ∉ (lbGetStatus lbInit).map Prod.fst := by
  decide

/-- C9 (amended): `RaymondServer.get_status()` returns the
`{resource, holder, queue, queue_length}` snapshot with the resource name,
holder, ordered queue and queue length; `LeaderboardToken.get_status()`
instead returns `{has_token, current_holder, queue}` — holder and ordered
queue but no resource name and no queue-length field. -/
theorem status_snapshot_shapes :
    (∀ s : RaymondServer,
      (rsGetStatus s).map Prod.fst = ["resource", "holder", "queue", "queue_length"] ∧
      dictGet? (rsGetStatus s) "resource" = some (.str s.resource_name) ∧
      dictGet? (rsGetStatus s) "holder" = some (optVal s.current_holder) ∧
      dictGet? (rsGetStatus s) "queue" = some (.strList s.queue) ∧
      dictGet? (rsGetStatus s) "queue_length" = some (.int (s.queue.length : ℤ))) ∧
    (∀ s : LeaderboardToken,
      (lbGetStatus s).map Prod.fst = ["has_token", "current_holder", "queue"] ∧
      dictGet? (lbGetStatus s) "has_token" = some (.bool s.has_token) ∧
      dictGet? (lbGetStatus s) "current_holder" = some (optVal s.current_holder) ∧
      dictGet? (lbGetStatus s) "queue" = some (.strList s.queue) ∧
      dictGet? (lbGetStatus s) "resource" = none ∧
      dictGet? (lbGetStatus s) "queue_length" = none) := by
  constructor
  · intro s
    refine ⟨rfl, ?_, ?_, ?_, ?_⟩ <;> simp [rsGetStatus, dictGet?]
  · intro s
    refine ⟨rfl, ?_, ?_, ?_, ?_, ?_⟩ <;> simp [lbGetStatus, dictGet?]

/-! ## `server/ricart_agrawala.py` — the simple `RicartAgrawala` variant

The file `server/ricart_agrawala.py` consists solely of the class definition:
it contains no `import` statement, so the module-global name `time` is
unbound and every evaluation of `time.time()` in this module raises
`NameError` at call time.  The embedding threads this through `Except`. -/

/-- State of the simple `RicartAgrawala` (`server/ricart_agrawala.py`). -/
structure SimpleRA where
  in_critical_section : Bool
  current_holder : Option ClientId
  start_time : ℚ
  duration : ℚ
deriving DecidableEq

/-- `SimpleRA.__init__()`. -/
def simpleRAInit : SimpleRA := ⟨false, none, 0, 30⟩

/-- Evaluation of `time.time()` inside `server/ricart_agrawala.py`: the
module never imports `time`, so the lookup of the global name fails with a
`NameError` irrespective of the wall clock. -/
def simpleRATimeTime (_now : ℚ) : Except String ℚ :=
  .error "NameError: name 'time' is not defined"

/-- `RicartAgrawala.release_critical_section(player_id)`: pure bookkeeping,
no clock read, hence total.  The internal force-release call site passes
`self.current_holder`, so the parameter is an optional identity. -/
def simpleRAReleaseCS (s : SimpleRA) (player_id : Option ClientId) :
    (Bool × String) × SimpleRA :=
  if ¬ s.in_critical_section ∨ s.current_holder ≠ player_id then
    ((false, "Not in critical section"), s)
  else
    ((true, "Released critical section"),
     { s with in_critical_section := false, current_holder := none })

/-- `RicartAgrawala.request_critical_section(player_id, timestamp)`: begins
with `current_time = time.time()`, which raises `NameError`; the remainder of
the body is embedded faithfully but is unreachable. -/
def simpleRARequestCS (s : SimpleRA) (player_id : ClientId) (_timestamp now : ℚ) :
    Except String ((Bool × Option ClientId × ℚ) × SimpleRA) := do
  let current_time ← simpleRATimeTime now
  if s.in_critical_section then
    let remaining := (s.start_time + s.duration) - current_time
    if remaining ≤ 0 then
      let (_, s1) := simpleRAReleaseCS s s.current_holder
      pure ((true, none, s1.duration),
        { s1 with in_critical_section := true, current_holder := some player_id,
                  start_time := current_time })
    else
      pure ((false, s.current_holder, remaining), s)
  else
    pure ((true, none, s.duration),
      { s with in_critical_section := true, current_holder := some player_id,
               start_time := current_time })

/-- Snapshot shape of the simple variant's `get_status()`. -/
structure SimpleRAStatus where
  in_use : Bool
  current_holder : Option ClientId
  remaining : ℚ
deriving DecidableEq

/-- `RicartAgrawala.get_status()`: also begins with `time.time()`, raising
`NameError`; the dictionary construction below it is unreachable. -/
def simpleRAGetStatus (s : SimpleRA) (now : ℚ) : Except String SimpleRAStatus := do
  let current_time ← simpleRATimeTime now
  let remaining :=
    if s.in_critical_section then max 0 ((s.start_time + s.duration) - current_time) else 0
  pure ⟨s.in_critical_section, s.current_holder, remaining⟩

/-- C3 is violated: `request_critical_section` and `get_status` of the simple
`RicartAgrawala` never return their documented tuples/dictionaries — every
call raises `NameError` because `server/ricart_agrawala.py` never imports
`time` (only `release_critical_section`, which reads no clock, is total). -/
theorem simple_ra_operations_raise_name_error :
    (∀ (s : SimpleRA) (player_id : ClientId) (ts now : ℚ),
      simpleRARequestCS s player_id ts now
        = .error "NameError: name 'time' is not defined") ∧
    (∀ (s : SimpleRA) (now : ℚ),
      simpleRAGetStatus s now = .error "NameError: name 'time' is not defined") ∧
    (∀ (s : SimpleRA) (player_id : Option ClientId),
      (simpleRAReleaseCS s player_id).1 = (false, "Not in critical section") ∨
      (simpleRAReleaseCS s player_id).1 = (true, "Released critical section")) := by
  refine ⟨?_, ?_, ?_⟩
  · intro s player_id ts now
    rfl
  · intro s now
    rfl
  · intro s player_id
    unfold simpleRAReleaseCS
    split
    · left
      rfl
    · right
      rfl

/-! ## `server/clock_sync.py` and `client/clock_sync.py` — offset estimators -/

/-- State of `NetworkTimeProtocol` (`server/clock_sync.py`). -/
structure NetworkTimeProtocol where
  offset : ℚ
  reference_timestamp : ℚ
deriving DecidableEq

/-- `NetworkTimeProtocol.synchronize(t1, t2, t3, t4)`: accepts the candidate
offset only when `0 < delay < 5`, bumping the reference instant; returns the
stored offset either way. -/
def ntpSynchronize (s : NetworkTimeProtocol) (t1 t2 t3 t4 now : ℚ) :
    ℚ × NetworkTimeProtocol :=
  let delay := (t4 - t1) - (t3 - t2)
  let offset := ((t2 - t1) + (t3 - t4)) / 2
  if delay > 0 ∧ delay < 5 then
    (offset, ⟨offset, now⟩)
  else
    (s.offset, s)

/-- State of `NetworkTimeClient` (`client/clock_sync.py`). -/
structure NetworkTimeClient where
  offset : ℚ
  reference_timestamp : ℚ
  last_sync_time : ℚ
deriving DecidableEq

/-- `NetworkTimeClient.process_sync_response(t2, t3)`: `t1` is the stored
last request instant and `t4` the processing instant `now`. -/
def ntcProcessSyncResponse (s : NetworkTimeClient) (t2 t3 now : ℚ) :
    ℚ × NetworkTimeClient :=
  let t1 := s.last_sync_time
  let t4 := now
  let delay := (t4 - t1) - (t3 - t2)
  let offset := ((t2 - t1) + (t3 - t4)) / 2
  if delay > 0 ∧ delay < 5 then
    (offset, { s with offset := offset, reference_timestamp := now })
  else
    (s.offset, s)

/-- C6: for both offset estimators, with `delay = (t4-t1)-(t3-t2)`: if
`0 < delay < 5` the stored offset becomes `((t2-t1)+(t3-t4))/2` and the
reference instant is bumped to the processing instant; otherwise the state is
completely unchanged; in both cases the returned value is the stored
offset. -/
theorem offset_estimator_accepts_iff_delay_window
    (sv : NetworkTimeProtocol) (sc : NetworkTimeClient) (t1 t2 t3 t4 now : ℚ) :
    ((0 < (t4 - t1) - (t3 - t2) ∧ (t4 - t1) - (t3 - t2) < 5) →
      (ntpSynchronize sv t1 t2 t3 t4 now).2
          = ⟨((t2 - t1) + (t3 - t4)) / 2, now⟩ ∧
      ((0 < (t4 - sc.last_sync_time) - (t3 - t2) ∧
          (t4 - sc.last_sync_time) - (t3 - t2) < 5) →
        (ntcProcessSyncResponse sc t2 t3 t4).2
          = ⟨((t2 - sc.last_sync_time) + (t3 - t4)) / 2, t4, sc.last_sync_time⟩)) ∧
    (((t4 - t1) - (t3 - t2) ≤ 0 ∨ 5 ≤ (t4 - t1) - (t3 - t2)) →
      (ntpSynchronize sv t1 t2 t3 t4 now).2 = sv ∧
      ((t4 - sc.last_sync_time) - (t3 - t2) ≤ 0 ∨ 5 ≤ (t4 - sc.last_sync_time) - (t3 - t2) →
        (ntcProcessSyncResponse sc t2 t3 t4).2 = sc)) ∧
    (ntpSynchronize sv t1 t2 t3 t4 now).1 = (ntpSynchronize sv t1 t2 t3 t4 now).2.offset ∧
    (ntcProcessSyncResponse sc t2 t3 t4).1 = (ntcProcessSyncResponse sc t2 t3 t4).2.offset := by
  refine ⟨?_, ?_, ?_, ?_⟩
  · intro hin
    constructor
    · simp only [ntpSynchronize, if_pos (⟨hin.1, hin.2⟩ : _ ∧ _)]
    · intro hin'
      simp only [ntcProcessSyncResponse, if_pos (⟨hin'.1, hin'.2⟩ : _ ∧ _)]
  · intro hout
    have hneg : ¬ ((t4 - t1) - (t3 - t2) > 0 ∧ (t4 - t1) - (t3 - t2) < 5) := by
      rcases hout with h | h
      · intro hc
        exact absurd hc.1 (not_lt.mpr h)
      · intro hc
        exact absurd hc.2 (not_lt.mpr h)
    constructor
    · simp only [ntpSynchronize, if_neg hneg]
    · intro hout'
      have hneg' : ¬ ((t4 - sc.last_sync_time) - (t3 - t2) > 0 ∧
          (t4 - sc.last_sync_time) - (t3 - t2) < 5) := by
        rcases hout' with h | h
        · intro hc
          exact absurd hc.1 (not_lt.mpr h)
        · intro hc
          exact absurd hc.2 (not_lt.mpr h)
      simp only [ntcProcessSyncResponse, if_neg hneg']
  · by_cases hc : (t4 - t1) - (t3 - t2) > 0 ∧ (t4 - t1) - (t3 - t2) < 5
    · simp only [ntpSynchronize, if_pos hc]
    · simp only [ntpSynchronize, if_neg hc]
  · by_cases hc : (t4 - sc.last_sync_time) - (t3 - t2) > 0 ∧
        (t4 - sc.last_sync_time) - (t3 - t2) < 5
    · simp only [ntcProcessSyncResponse, if_pos hc]
    · simp only [ntcProcessSyncResponse, if_neg hc]

/-- Witness for C6: a round trip with `delay = 3` inside the window is
accepted by both estimators, storing `((t2-t1)+(t3-t4))/2` and bumping the
reference instant. -/
theorem offset_estimator_accepts_iff_delay_window_witness :
    (ntpSynchronize ⟨0, 0⟩ 0 2 3 4 9).2 = ⟨((2 - 0) + (3 - 4)) / 2, 9⟩ ∧
    (ntcProcessSyncResponse ⟨0, 0, 0⟩ 2 3 4).2 = ⟨((2 - 0) + (3 - 4)) / 2, 4, 0⟩ := by
  have h := (offset_estimator_accepts_iff_delay_window ⟨0, 0⟩ ⟨0, 0, 0⟩ 0 2 3 4 9).1
    (by norm_num)
  exact ⟨h.1, h.2 (by norm_num)⟩

/-! ## `server/time_warp_manager.py` — `TimeWarpManager`

`TimeWarpManager` guards its state with a non-reentrant `threading.Lock`.
Methods that take the lock are embedded with an explicit `held` flag saying
whether the calling context already holds that lock; executing
`with self.lock:` while `held` is true blocks the thread forever, which the
embedding records as `LockStep.deadlock`. -/

/-- Outcome of running a lock-guarded body: either a result or a permanently
blocked thread (non-reentrant lock re-acquisition). -/
inductive LockStep (α : Type) where
  | ok (a : α)
  | deadlock
deriving DecidableEq

/-- Abstract rendering of the message strings returned by
`TimeWarpManager.activate_time_warp`. -/
inductive TWMsg where
  | inCooldown (r : ℤ)
  | alreadyActive (r : ℤ)
  | activated
deriving DecidableEq

/-- State of `TimeWarpManager` (`server/time_warp_manager.py`): per-client
sessions `(start_time, end_time)` and per-client cooldowns. -/
structure TimeWarpManager where
  duration : ℚ
  cooldown : ℚ
  active_warps : Dict (ℚ × ℚ)
  cooldowns : Dict ℚ
deriving DecidableEq

/-- `TimeWarpManager.__init__(duration, cooldown)`. -/
def twmInit (duration cooldown : ℚ) : TimeWarpManager :=
  ⟨duration, cooldown, [], []⟩

/-- The body of `activate_time_warp` after the cooldown gate (lines 32–51):
report an existing unexpired session, otherwise open a new session
(start=now, end=now+duration) — the scheduled timer is modelled separately by
`twmAutoDeactivate`. -/
def twmActivateMain (s : TimeWarpManager) (client_id : ClientId) (now : ℚ) :
    (Bool × ℚ × TWMsg) × TimeWarpManager :=
  match dictGet? s.active_warps client_id with
  | some se =>
      if now < se.2 then
        ((true, ((pyInt (se.2 - now) : ℤ) : ℚ), .alreadyActive (pyInt (se.2 - now))), s)
      else
        ((true, s.duration, .activated),
         { s with active_warps := dictSet s.active_warps client_id (now, now + s.duration) })
  | none =>
      ((true, s.duration, .activated),
       { s with active_warps := dictSet s.active_warps client_id (now, now + s.duration) })

/-- `TimeWarpManager.activate_time_warp(client_id)`: refuse while inside an
unexpired cooldown (the expired entry is NOT popped here), else report the
existing session or open a new one. -/
def twmActivate (s : TimeWarpManager) (client_id : ClientId) (now : ℚ) :
    (Bool × ℚ × TWMsg) × TimeWarpManager :=
  match dictGet? s.cooldowns client_id with
  | some cooldown_until =>
      if now < cooldown_until then
        ((false, ((pyInt (cooldown_until - now) : ℤ) : ℚ),
          .inCooldown (pyInt (cooldown_until - now))), s)
      else twmActivateMain s client_id now
  | none => twmActivateMain s client_id now

/-- `TimeWarpManager.deactivate_time_warp(client_id)`: a public method that
opens with `with self.lock:` — re-entered with the lock already held it
deadlocks; otherwise it removes the session (if any) and stamps the
cooldown. -/
def twmDeactivate (held : Bool) (s : TimeWarpManager) (client_id : ClientId) (now : ℚ) :
    LockStep (Bool × TimeWarpManager) :=
  if held then .deadlock
  else
    match dictGet? s.active_warps client_id with
    | none => .ok (false, s)
    | some _ =>
        .ok (true,
          { s with active_warps := dictPop s.active_warps client_id,
                   cooldowns := dictSet s.cooldowns client_id (now + s.cooldown) })

/-- `TimeWarpManager._auto_deactivate_time_warp(client_id, expected_end_time)`
(lines 53–60): acquires the lock, re-validates the stored end instant, and —
holding the lock — calls the public `deactivate_time_warp`, which tries to
acquire the same non-reentrant lock again. -/
def twmAutoDeactivate (held : Bool) (s : TimeWarpManager) (client_id : ClientId)
    (expected_end_time now : ℚ) : LockStep TimeWarpManager :=
  if held then .deadlock
  else
    match dictGet? s.active_warps client_id with
    | some se =>
        if se.2 = expected_end_time then
          match twmDeactivate true s client_id now with
          | .deadlock => .deadlock
          | .ok r => .ok r.2
        else .ok s
    | none => .ok s

/-- C7 fails on `TimeWarpManager`: when the timer fires for a still-matching
session (client `X`, end instant 90), `_auto_deactivate_time_warp` calls the
public `deactivate_time_warp` while already holding the manager's
non-reentrant lock, so the callback deadlocks instead of performing the
deactivation; the state mutation never happens.  (The stale cases, by
contrast, leave the state unchanged and return.) -/
theorem auto_deactivate_matching_session_deadlocks :
    twmAutoDeactivate false ⟨90, 120, [("X", (0, 90))], []⟩ "X" 90 90
      = LockStep.deadlock ∧
    twmAutoDeactivate false ⟨90, 120, [("X", (0, 90))], []⟩ "X" 42 90
      = LockStep.ok ⟨90, 120, [("X", (0, 90))], []⟩ ∧
    twmAutoDeactivate false ⟨90, 120, [], []⟩ "X" 90 90
      = LockStep.ok ⟨90, 120, [], []⟩ := by
  refine ⟨?_, ?_, ?_⟩ <;> rfl

/-- C8: if client `c` has an active session `(st, et)` with
`st < now < et ≤ st + duration` and is not inside an unexpired cooldown, then
`activate_time_warp` returns success with the truncated remaining time of the
existing session — strictly less than the full duration — and leaves the
state completely unchanged. -/
theorem activate_already_active_returns_remaining
    (s : TimeWarpManager) (c : ClientId) (now st et : ℚ)
    (hw : dictGet? s.active_warps c = some (st, et))
    (hcd : ∀ cu, dictGet? s.cooldowns c = some cu → cu ≤ now)
    (hnow : now < et) (hst : st < now) (hdur : et ≤ st + s.duration) :
    twmActivate s c now
      = ((true, ((pyInt (et - now) : ℤ) : ℚ), .alreadyActive (pyInt (et - now))), s) ∧
    ((pyInt (et - now) : ℤ) : ℚ) < s.duration := by
  have hmain : twmActivateMain s c now
      = ((true, ((pyInt (et - now) : ℤ) : ℚ), .alreadyActive (pyInt (et - now))), s) := by
    simp only [twmActivateMain, hw, if_pos hnow]
  have hlt : ((pyInt (et - now) : ℤ) : ℚ) < s.duration := by
    have h0 : (0 : ℚ) ≤ et - now := le_of_lt (sub_pos.mpr hnow)
    have hfl : ((pyInt (et - now) : ℤ) : ℚ) ≤ et - now := by
      rw [pyInt, if_neg (not_lt.mpr h0)]
      exact Int.floor_le (et - now)
    have hlt2 : et - now < s.duration := by
      have : et - now < et - st := by
        exact sub_lt_sub_left hst et
      have h2 : et - st ≤ s.duration := by linarith
      linarith
    linarith
  refine ⟨?_, hlt⟩
  cases hget : dictGet? s.cooldowns c with
  | some cu =>
      have hnlt : ¬ now < cu := not_lt.mpr (hcd cu hget)
      simp only [twmActivate, hget, if_neg hnlt]
      exact hmain
  | none =>
      simp only [twmActivate, hget]
      exact hmain

/-- Witness for C8: client `X` with session `(0, 90)` re-activating at
instant 30 gets success with remaining 60, strictly below the full duration
90, and the state is untouched. -/
theorem activate_already_active_returns_remaining_witness :
    twmActivate ⟨90, 120, [("X", (0, 90))], []⟩ "X" 30
      = ((true, ((pyInt (90 - 30) : ℤ) : ℚ), .alreadyActive (pyInt (90 - 30))),
         ⟨90, 120, [("X", (0, 90))], []⟩) ∧
    ((pyInt ((90 : ℚ) - 30) : ℤ) : ℚ) < (90 : ℚ) :=
  activate_already_active_returns_remaining ⟨90, 120, [("X", (0, 90))], []⟩ "X" 30 0 90
    rfl (fun cu h => Option.noConfusion h) (by norm_num) (by norm_num) (by norm_num)
